import Mathlib

/-!
Shallow embedding of `library/constant_time.c` (constant-time buffer
operations of mbedtls) and proofs of its specification claims.

Byte buffers are modelled as `List Nat`, one element per byte; a valid byte
is `< 256`.  C loops that mutate a buffer in place become `List.foldl` over
`List.range`, updating the list with `List.set` — the same indices, in the
same order, as the source loops.  `size_t` arithmetic in the source stays in
range in every situation the claims cover (`offset ≤ total`, etc.), so sizes
are plain `Nat`; machine truncation of byte stores is kept explicit as
`% 256`.

The scalar constant-time primitives consumed by this file
(`mbedtls_ct_uint_eq`, `mbedtls_ct_uint_gt`, `mbedtls_ct_uint_if`,
`mbedtls_ct_uint_if_else_0`, `mbedtls_ct_compiler_opaque`, and the
condition/mask representation) are declared in headers that are not part of
this repository snapshot; they are modelled from the spec, §3 and §6.
-/

/-- Modelled from the spec: the condition/mask word (§3).  A condition is a
machine word that is all-ones (`0xFFFFFFFF` in the 32-bit reference design)
when true and all-zero when false; `ct_word` maps the abstract boolean
condition to that mask word. -/
def ct_word (c : Bool) : Nat :=
  if c then 4294967295 else 0

/-- Modelled from the spec: `uint_eq(a, b) -> condition`, branch-free
equality on unsigned words (§6). -/
def mbedtls_ct_uint_eq (a b : Nat) : Bool :=
  a == b

/-- Modelled from the spec: `uint_gt(a, b) -> condition`, branch-free
greater-than on unsigned words (§6). -/
def mbedtls_ct_uint_gt (a b : Nat) : Bool :=
  decide (b < a)

/-- Modelled from the spec: `uint_if(condition, x, y) -> value`, branch-free
scalar select (§6): `x` when the condition is true, `y` when false. -/
def mbedtls_ct_uint_if (c : Bool) (x y : Nat) : Nat :=
  if c then x else y

/-- Modelled from the spec: `uint_if_else_0(condition, x) -> value`,
branch-free select-or-zero (§6). -/
def mbedtls_ct_uint_if_else_0 (c : Bool) (x : Nat) : Nat :=
  if c then x else 0

/-- Modelled from the spec: `opaque_barrier(value) -> value`, an identity
function the compiler must not optimize across (§6).  Semantically the
identity. -/
def mbedtls_ct_compiler_opaque (x : Nat) : Nat :=
  x

/-- `mbedtls_ct_memcmp(a, b, n)` (constant_time.c:92-124, byte-wise loop):
accumulate `diff |= a[i] ^ b[i]` over all `i < n` and return `diff`. -/
def mbedtls_ct_memcmp (a b : List Nat) (n : Nat) : Nat :=
  (List.range n).foldl (fun diff i => diff ||| (a.getD i 0 ^^^ b.getD i 0)) 0

/-- The byte read from the second source of `mbedtls_ct_memcpy_if`: the C
code replaces a NULL `src2` by `dest` itself (constant_time.c:161-163), so
with the sentinel the loop reads the current destination byte. -/
def src2_byte (d : List Nat) (src2 : Option (List Nat)) (i : Nat) : Nat :=
  match src2 with
  | some s => s.getD i 0
  | none => d.getD i 0

/-- `mbedtls_ct_memcpy_if(condition, dest, src1, src2, len)`
(constant_time.c:147-177, byte-wise loop): with `mask = (uint32_t)condition`
and `not_mask = ~opaque(condition)`, set
`dest[i] = (src1[i] & mask) | (src2[i] & not_mask)` for `i < len`.
`src2 = none` models the NULL sentinel, in which case the source aliases the
destination and the loop reads the current `dest[i]`. -/
def mbedtls_ct_memcpy_if (condition : Bool) (dest src1 : List Nat)
    (src2 : Option (List Nat)) (len : Nat) : List Nat :=
  let mask : Nat := ct_word condition
  let not_mask : Nat := 4294967295 ^^^ mbedtls_ct_compiler_opaque (ct_word condition)
  (List.range len).foldl
    (fun d i => d.set i (((src1.getD i 0 &&& mask) ||| (src2_byte d src2 i &&& not_mask)) % 256))
    dest

/-- The ascending candidate list `offset_min, offset_min + 1, ..., offset_max`
walked by the loop of `mbedtls_ct_memcpy_offset` (constant_time.c:188);
empty when `offset_max < offset_min`. -/
def memcpy_offset_candidates (offset_min offset_max : Nat) : List Nat :=
  (List.range (offset_max + 1 - offset_min)).map (fun v => offset_min + v)

/-- `mbedtls_ct_memcpy_offset(dest, src, offset, offset_min, offset_max, len)`
(constant_time.c:179-192): for each candidate `v` from `offset_min` to
`offset_max`, perform `mbedtls_ct_memcpy_if(uint_eq(v, offset), dest,
src + v, NULL, len)`.  The pointer `src + v` is modelled as `src.drop v`. -/
def mbedtls_ct_memcpy_offset (dest src : List Nat)
    (offset offset_min offset_max len : Nat) : List Nat :=
  (memcpy_offset_candidates offset_min offset_max).foldl
    (fun d v => mbedtls_ct_memcpy_if (mbedtls_ct_uint_eq v offset) d (src.drop v) none len)
    dest

/-- The inner loop of one outer pass of `mbedtls_ct_memmove_left`
(constant_time.c:136-140): for each `n < total - 1` set
`buf[n] = uint_if(no_op, buf[n], buf[n+1])`. -/
def memmove_pass_inner (no_op : Bool) (total : Nat) (buf : List Nat) : List Nat :=
  (List.range (total - 1)).foldl
    (fun b n =>
      let current := b.getD n 0
      let next := b.getD (n + 1) 0
      b.set n (mbedtls_ct_uint_if no_op current next))
    buf

/-- One outer pass of `mbedtls_ct_memmove_left` (constant_time.c:132-141):
the inner loop, then `buf[total-1] = uint_if_else_0(no_op, buf[total-1])`. -/
def memmove_left_pass (no_op : Bool) (total : Nat) (buf : List Nat) : List Nat :=
  let b1 := memmove_pass_inner no_op total buf
  b1.set (total - 1) (mbedtls_ct_uint_if_else_0 no_op (b1.getD (total - 1) 0))

/-- `mbedtls_ct_memmove_left(buf, total, offset)` (constant_time.c:128-143):
`total` outer passes; pass `i` is a no-op when `total - offset > i` and
otherwise shifts the buffer left one byte, zeroing the last byte. -/
def mbedtls_ct_memmove_left (buf : List Nat) (total offset : Nat) : List Nat :=
  (List.range total).foldl
    (fun b i => memmove_left_pass (mbedtls_ct_uint_gt (total - offset) i) total b)
    buf

/-- `mbedtls_ct_zeroize_if(condition, buf, len)` (constant_time.c:196-210,
byte-wise loop): with `mask = (uint32_t)~condition`, set
`buf[i] = buf[i] & mask` for `i < len`. -/
def mbedtls_ct_zeroize_if (condition : Bool) (buf : List Nat) (len : Nat) : List Nat :=
  let mask : Nat := 4294967295 ^^^ ct_word condition
  (List.range len).foldl (fun p i => p.set i ((p.getD i 0 &&& mask) % 256)) buf

/-- Access-pattern model for `mbedtls_ct_memcpy_if` called on `src1 = src + base`
with the NULL sentinel for `src2`: the absolute `src` indices read by its
loop.  The loop (constant_time.c:174-176) reads `src1[i]` for every `i < len`
unconditionally; the condition feeds only the mask values, never an address
or a bound. -/
def memcpy_if_src_reads (condition : Bool) (base len : Nat) : List Nat :=
  (List.range len).map (fun i => base + i)

/-- Access-pattern model for `mbedtls_ct_memcpy_offset`: the sequence of
absolute `src` indices read, concatenating the reads of the conditional copy
performed for each candidate in ascending order (constant_time.c:188-191). -/
def memcpy_offset_src_reads (offset offset_min offset_max len : Nat) : List Nat :=
  (memcpy_offset_candidates offset_min offset_max).foldl
    (fun acc v => acc ++ memcpy_if_src_reads (mbedtls_ct_uint_eq v offset) v len)
    []

/-! ### Basic list lemmas -/

theorem getD_set_self (l : List Nat) (i a : Nat) (h : i < l.length) :
    (l.set i a).getD i 0 = a := by
  rw [List.getD_eq_getElem?_getD, List.getElem?_set_eq_of_lt a h]
  rfl

theorem getD_set_ne (l : List Nat) (i j a : Nat) (h : i ≠ j) :
    (l.set i a).getD j 0 = l.getD j 0 := by
  rw [List.getD_eq_getElem?_getD, List.getElem?_set_ne h, ← List.getD_eq_getElem?_getD]

theorem set_getD_self (l : List Nat) : ∀ (i : Nat), l.set i (l.getD i 0) = l := by
  induction l with
  | nil => intro i; rfl
  | cons x xs ih =>
    intro i
    cases i with
    | zero => rfl
    | succ n =>
      show x :: xs.set n ((x :: xs).getD (n + 1) 0) = x :: xs
      rw [List.getD_cons_succ, ih n]

theorem getD_of_length_le (l : List Nat) (i : Nat) (h : l.length ≤ i) : l.getD i 0 = 0 := by
  rw [List.getD_eq_getElem?_getD, List.getElem?_eq_none h]
  rfl

theorem eq_of_length_getD (a b : List Nat) (hl : a.length = b.length)
    (h : ∀ i, i < a.length → a.getD i 0 = b.getD i 0) : a = b := by
  apply List.ext_get hl
  intro i h1 h2
  have hi := h i h1
  rwa [List.getD_eq_getElem a 0 h1, List.getD_eq_getElem b 0 h2] at hi

theorem getD_lt_256 (l : List Nat) (hb : ∀ x ∈ l, x < 256) (j : Nat) :
    l.getD j 0 < 256 := by
  by_cases hj : j < l.length
  · rw [List.getD_eq_getElem l 0 hj]
    exact hb _ (List.getElem_mem hj)
  · rw [getD_of_length_le l j (by omega)]
    omega

/-! ### Characterizing the in-place update loops

Each byte-wise loop of the source has the shape
`for (i = 0; i < len; i++) buf[i] = F(buf, i);` where `F` reads the current
buffer only at indices `≥ i`.  The two lemmas below give the length and the
pointwise contents of the resulting buffer. -/

theorem foldl_set_range_length (F : List Nat → Nat → Nat) (len : Nat) (b : List Nat) :
    ((List.range len).foldl (fun d i => d.set i (F d i)) b).length = b.length := by
  induction len with
  | zero => rfl
  | succ n ih =>
    rw [List.range_succ, List.foldl_append, List.foldl_cons, List.foldl_nil,
      List.length_set]
    exact ih

theorem foldl_set_range_getD (F : List Nat → Nat → Nat)
    (hF : ∀ b b' i, b.length = b'.length → (∀ j, i ≤ j → b.getD j 0 = b'.getD j 0) →
      F b i = F b' i) :
    ∀ (len : Nat) (b : List Nat) (j : Nat),
      ((List.range len).foldl (fun d i => d.set i (F d i)) b).getD j 0 =
        if j < len ∧ j < b.length then F b j else b.getD j 0 := by
  intro len
  induction len with
  | zero =>
    intro b j
    simp [List.range_zero]
  | succ n ih =>
    intro b j
    rw [List.range_succ, List.foldl_append, List.foldl_cons, List.foldl_nil]
    by_cases hj : j = n
    · subst hj
      by_cases hlen : j < b.length
      · have hRlen : ((List.range j).foldl (fun d i => d.set i (F d i)) b).length = b.length :=
          foldl_set_range_length F j b
        rw [getD_set_self _ _ _ (by rw [hRlen]; exact hlen), if_pos ⟨by omega, hlen⟩]
        apply hF _ _ _ hRlen
        intro j2 hj2
        rw [ih b j2, if_neg (by omega)]
      · rw [List.set_eq_of_length_le (by rw [foldl_set_range_length]; omega)]
        rw [ih b j, if_neg (by omega), if_neg (by omega)]
    · rw [getD_set_ne _ _ _ _ (fun h => hj h.symm), ih b j]
      by_cases h1 : j < n ∧ j < b.length
      · rw [if_pos h1, if_pos ⟨by omega, h1.2⟩]
      · rw [if_neg h1, if_neg (by
          rintro ⟨ha, hb⟩
          exact h1 ⟨by omega, hb⟩)]

/-! ### Mask arithmetic -/

theorem nat_or_eq_zero_iff (x y : Nat) : x ||| y = 0 ↔ x = 0 ∧ y = 0 := by
  constructor
  · intro h
    constructor
    · apply Nat.eq_of_testBit_eq
      intro i
      have hb := congrArg (fun z => z.testBit i) h
      simp only [Nat.testBit_or, Nat.zero_testBit, Bool.or_eq_false_iff] at hb
      simp [hb.1]
    · apply Nat.eq_of_testBit_eq
      intro i
      have hb := congrArg (fun z => z.testBit i) h
      simp only [Nat.testBit_or, Nat.zero_testBit, Bool.or_eq_false_iff] at hb
      simp [hb.2]
  · rintro ⟨rfl, rfl⟩
    rfl

theorem and_mask32_mod (x : Nat) (hx : x < 256) : (x &&& 4294967295) % 256 = x := by
  have h := Nat.and_pow_two_sub_one_eq_mod x 32
  norm_num at h
  rw [h, Nat.mod_mod_of_dvd x (by norm_num), Nat.mod_eq_of_lt hx]

/-- The per-byte select of `mbedtls_ct_memcpy_if` with a true condition keeps
the `src1` byte. -/
theorem ct_select_true (x y : Nat) (hx : x < 256) :
    ((x &&& ct_word true) ||| (y &&& (4294967295 ^^^ ct_word true))) % 256 = x := by
  show ((x &&& 4294967295) ||| (y &&& (4294967295 ^^^ 4294967295))) % 256 = x
  rw [Nat.xor_self, Nat.and_zero, Nat.or_zero, and_mask32_mod x hx]

/-- The per-byte select of `mbedtls_ct_memcpy_if` with a false condition keeps
the `src2` byte. -/
theorem ct_select_false (x y : Nat) (hy : y < 256) :
    ((x &&& ct_word false) ||| (y &&& (4294967295 ^^^ ct_word false))) % 256 = y := by
  show ((x &&& 0) ||| (y &&& (4294967295 ^^^ 0))) % 256 = y
  rw [Nat.xor_zero, Nat.and_zero, Nat.zero_or, and_mask32_mod y hy]

/-! ### mbedtls_ct_memcmp -/

theorem memcmp_succ (a b : List Nat) (n : Nat) :
    mbedtls_ct_memcmp a b (n + 1) =
      mbedtls_ct_memcmp a b n ||| (a.getD n 0 ^^^ b.getD n 0) := by
  unfold mbedtls_ct_memcmp
  rw [List.range_succ, List.foldl_append, List.foldl_cons, List.foldl_nil]

theorem memcmp_eq_zero_iff_getD (a b : List Nat) :
    ∀ (n : Nat), mbedtls_ct_memcmp a b n = 0 ↔ ∀ i, i < n → a.getD i 0 = b.getD i 0 := by
  intro n
  induction n with
  | zero =>
    constructor
    · intro _ i hi
      omega
    · intro _
      rfl
  | succ n ih =>
    rw [memcmp_succ, nat_or_eq_zero_iff, ih, Nat.xor_eq_zero]
    constructor
    · rintro ⟨h1, h2⟩ i hi
      rcases Nat.lt_succ_iff_lt_or_eq.mp hi with h | h
      · exact h1 i h
      · rw [h]
        exact h2
    · intro h
      exact ⟨fun i hi => h i (by omega), h n (by omega)⟩

/-! ### mbedtls_ct_memcpy_if -/

theorem src2_byte_some (d s : List Nat) (i : Nat) : src2_byte d (some s) i = s.getD i 0 :=
  rfl

theorem src2_byte_none (d : List Nat) (i : Nat) : src2_byte d none i = d.getD i 0 :=
  rfl

theorem memcpy_if_eq_fold (condition : Bool) (dest src1 : List Nat)
    (src2 : Option (List Nat)) (len : Nat) :
    mbedtls_ct_memcpy_if condition dest src1 src2 len =
      (List.range len).foldl
        (fun d i =>
          d.set i (((src1.getD i 0 &&& ct_word condition) |||
            (src2_byte d src2 i &&& (4294967295 ^^^ ct_word condition))) % 256))
        dest :=
  rfl

theorem memcpy_if_length (c : Bool) (dest src1 : List Nat) (src2 : Option (List Nat))
    (len : Nat) : (mbedtls_ct_memcpy_if c dest src1 src2 len).length = dest.length := by
  rw [memcpy_if_eq_fold]
  exact foldl_set_range_length _ len dest

theorem memcpy_if_getD_some (c : Bool) (dest src1 s : List Nat) (len j : Nat) :
    (mbedtls_ct_memcpy_if c dest src1 (some s) len).getD j 0 =
      if j < len ∧ j < dest.length then
        ((src1.getD j 0 &&& ct_word c) ||| (s.getD j 0 &&& (4294967295 ^^^ ct_word c))) % 256
      else dest.getD j 0 := by
  rw [memcpy_if_eq_fold]
  have h := foldl_set_range_getD
    (fun d i =>
      ((src1.getD i 0 &&& ct_word c) ||| (src2_byte d (some s) i &&& (4294967295 ^^^ ct_word c))) % 256)
    (fun b b' i hl hag => by simp only [src2_byte_some]) len dest j
  rw [h]
  simp only [src2_byte_some]

theorem memcpy_if_getD_none (c : Bool) (dest src1 : List Nat) (len j : Nat) :
    (mbedtls_ct_memcpy_if c dest src1 none len).getD j 0 =
      if j < len ∧ j < dest.length then
        ((src1.getD j 0 &&& ct_word c) |||
          (dest.getD j 0 &&& (4294967295 ^^^ ct_word c))) % 256
      else dest.getD j 0 := by
  rw [memcpy_if_eq_fold]
  have h := foldl_set_range_getD
    (fun d i =>
      ((src1.getD i 0 &&& ct_word c) ||| (src2_byte d none i &&& (4294967295 ^^^ ct_word c))) % 256)
    (fun b b' i hl hag => by
      simp only [src2_byte_none]
      rw [hag i (Nat.le_refl i)]) len dest j
  rw [h]
  simp only [src2_byte_none]

theorem getD_take_append_drop (s d : List Nat) (len j : Nat)
    (hs : len ≤ s.length) (hd : len ≤ d.length) :
    (s.take len ++ d.drop len).getD j 0 = if j < len then s.getD j 0 else d.getD j 0 := by
  have hlt : (s.take len).length = len := by
    rw [List.length_take]
    omega
  by_cases hj : j < len
  · rw [if_pos hj, List.getD_eq_getElem?_getD, List.getElem?_append_left (by omega),
      List.getElem?_take, if_pos hj, ← List.getD_eq_getElem?_getD]
  · rw [if_neg hj, List.getD_eq_getElem?_getD, List.getElem?_append_right (by omega), hlt,
      List.getElem?_drop, ← List.getD_eq_getElem?_getD]
    congr 1
    omega

/-- A conditional copy with a true condition copies `src1`, for either form of
`src2`. -/
theorem memcpy_if_true_eq (dest src1 : List Nat) (src2 : Option (List Nat)) (len : Nat)
    (hd : len ≤ dest.length) (h1 : len ≤ src1.length) (hb1 : ∀ x ∈ src1, x < 256) :
    mbedtls_ct_memcpy_if true dest src1 src2 len = src1.take len ++ dest.drop len := by
  apply eq_of_length_getD
  · rw [memcpy_if_length, List.length_append, List.length_take, List.length_drop]
    omega
  · intro i hi
    rw [memcpy_if_length] at hi
    rw [getD_take_append_drop src1 dest len i h1 hd]
    by_cases hilen : i < len
    · cases src2 with
      | some s =>
        rw [memcpy_if_getD_some, if_pos ⟨hilen, hi⟩,
          ct_select_true _ _ (getD_lt_256 src1 hb1 i), if_pos hilen]
      | none =>
        rw [memcpy_if_getD_none, if_pos ⟨hilen, hi⟩,
          ct_select_true _ _ (getD_lt_256 src1 hb1 i), if_pos hilen]
    · cases src2 with
      | some s =>
        rw [memcpy_if_getD_some, if_neg (by omega), if_neg hilen]
      | none =>
        rw [memcpy_if_getD_none, if_neg (by omega), if_neg hilen]

/-- A conditional copy with a false condition and a real second source copies
`src2`. -/
theorem memcpy_if_false_some_eq (dest src1 s : List Nat) (len : Nat)
    (hd : len ≤ dest.length) (hs : len ≤ s.length) (hbs : ∀ x ∈ s, x < 256) :
    mbedtls_ct_memcpy_if false dest src1 (some s) len = s.take len ++ dest.drop len := by
  apply eq_of_length_getD
  · rw [memcpy_if_length, List.length_append, List.length_take, List.length_drop]
    omega
  · intro i hi
    rw [memcpy_if_length] at hi
    rw [getD_take_append_drop s dest len i hs hd]
    by_cases hilen : i < len
    · rw [memcpy_if_getD_some, if_pos ⟨hilen, hi⟩,
        ct_select_false _ _ (getD_lt_256 s hbs i), if_pos hilen]
    · rw [memcpy_if_getD_some, if_neg (by omega), if_neg hilen]

/-- A conditional copy with a false condition and the NULL sentinel for `src2`
is a no-op. -/
theorem memcpy_if_false_none_eq (dest src1 : List Nat) (len : Nat)
    (hbd : ∀ x ∈ dest, x < 256) :
    mbedtls_ct_memcpy_if false dest src1 none len = dest := by
  apply eq_of_length_getD
  · exact memcpy_if_length false dest src1 none len
  · intro i hi
    rw [memcpy_if_length] at hi
    rw [memcpy_if_getD_none]
    by_cases hilen : i < len
    · rw [if_pos ⟨hilen, hi⟩, ct_select_false _ _ (getD_lt_256 dest hbd i)]
    · rw [if_neg (by omega)]

/-! ### mbedtls_ct_zeroize_if -/

theorem zeroize_if_eq_fold (condition : Bool) (buf : List Nat) (len : Nat) :
    mbedtls_ct_zeroize_if condition buf len =
      (List.range len).foldl
        (fun p i => p.set i ((p.getD i 0 &&& (4294967295 ^^^ ct_word condition)) % 256))
        buf :=
  rfl

theorem zeroize_if_length (c : Bool) (buf : List Nat) (len : Nat) :
    (mbedtls_ct_zeroize_if c buf len).length = buf.length := by
  rw [zeroize_if_eq_fold]
  exact foldl_set_range_length _ len buf

theorem zeroize_if_getD (c : Bool) (buf : List Nat) (len j : Nat) :
    (mbedtls_ct_zeroize_if c buf len).getD j 0 =
      if j < len ∧ j < buf.length then (buf.getD j 0 &&& (4294967295 ^^^ ct_word c)) % 256
      else buf.getD j 0 := by
  rw [zeroize_if_eq_fold]
  exact foldl_set_range_getD
    (fun p i => (p.getD i 0 &&& (4294967295 ^^^ ct_word c)) % 256)
    (fun b b' i hl hag => by
      show (b.getD i 0 &&& (4294967295 ^^^ ct_word c)) % 256 = _
      rw [hag i (Nat.le_refl i)]) len buf j

theorem getD_replicate_append_drop (d : List Nat) (len j : Nat) (hd : len ≤ d.length) :
    (List.replicate len 0 ++ d.drop len).getD j 0 = if j < len then 0 else d.getD j 0 := by
  by_cases hj : j < len
  · rw [if_pos hj, List.getD_eq_getElem?_getD,
      List.getElem?_append_left (by rw [List.length_replicate]; omega),
      List.getElem?_replicate_of_lt hj]
    rfl
  · rw [if_neg hj, List.getD_eq_getElem?_getD,
      List.getElem?_append_right (by rw [List.length_replicate]; omega),
      List.length_replicate, List.getElem?_drop, ← List.getD_eq_getElem?_getD]
    congr 1
    omega

/-- Zeroize with a true condition: the first `len` bytes become zero, the rest
is untouched. -/
theorem zeroize_if_true_eq (buf : List Nat) (len : Nat) (h : len ≤ buf.length) :
    mbedtls_ct_zeroize_if true buf len = List.replicate len 0 ++ buf.drop len := by
  apply eq_of_length_getD
  · rw [zeroize_if_length, List.length_append, List.length_replicate, List.length_drop]
    omega
  · intro i hi
    rw [zeroize_if_length] at hi
    rw [zeroize_if_getD, getD_replicate_append_drop buf len i h]
    by_cases hilen : i < len
    · rw [if_pos ⟨hilen, hi⟩, if_pos hilen]
      show (buf.getD i 0 &&& (4294967295 ^^^ 4294967295)) % 256 = 0
      rw [Nat.xor_self, Nat.and_zero]
    · rw [if_neg (by omega), if_neg hilen]

/-- Zeroize with a false condition is a no-op on a byte buffer. -/
theorem zeroize_if_false_eq (buf : List Nat) (len : Nat) (hb : ∀ x ∈ buf, x < 256) :
    mbedtls_ct_zeroize_if false buf len = buf := by
  apply eq_of_length_getD
  · exact zeroize_if_length false buf len
  · intro i hi
    rw [zeroize_if_length] at hi
    rw [zeroize_if_getD]
    by_cases hilen : i < len
    · rw [if_pos ⟨hilen, hi⟩]
      show (buf.getD i 0 &&& (4294967295 ^^^ 0)) % 256 = buf.getD i 0
      rw [Nat.xor_zero, and_mask32_mod _ (getD_lt_256 buf hb i)]
    · rw [if_neg (by omega)]

/-! ### mbedtls_ct_memcpy_offset -/

theorem memcpy_offset_candidates_mem (omn omx v : Nat) :
    v ∈ memcpy_offset_candidates omn omx ↔ omn ≤ v ∧ v ≤ omx := by
  unfold memcpy_offset_candidates
  simp only [List.mem_map, List.mem_range]
  constructor
  · rintro ⟨j, hj, rfl⟩
    omega
  · rintro ⟨h1, h2⟩
    exact ⟨v - omn, by omega, by omega⟩

/-- Every pass of the `mbedtls_ct_memcpy_offset` loop whose candidate does not
match the secret offset leaves the destination unchanged. -/
theorem fold_memcpy_if_no_match (src : List Nat) (offset len : Nat) :
    ∀ (vs : List Nat) (d : List Nat), (∀ v ∈ vs, v ≠ offset) → (∀ x ∈ d, x < 256) →
      vs.foldl
        (fun d v => mbedtls_ct_memcpy_if (mbedtls_ct_uint_eq v offset) d (src.drop v) none len)
        d = d := by
  intro vs
  induction vs with
  | nil =>
    intro d _ _
    rfl
  | cons v vs ih =>
    intro d hv hd
    rw [List.foldl_cons]
    have hne : mbedtls_ct_uint_eq v offset = false := by
      unfold mbedtls_ct_uint_eq
      exact beq_eq_false_iff_ne.mpr (hv v (by simp))
    rw [hne, memcpy_if_false_none_eq _ _ _ hd]
    exact ih d (fun w hw => hv w (by simp [hw])) hd

/-- Splitting the candidate list of `mbedtls_ct_memcpy_offset` at a matching
offset: candidates below, the offset itself, candidates above. -/
theorem memcpy_offset_candidates_split (omn omx offset : Nat)
    (h1 : omn ≤ offset) (h2 : offset ≤ omx) :
    memcpy_offset_candidates omn omx =
      ((List.range (offset - omn)).map (fun v => omn + v)) ++ offset ::
        ((List.range (omx - offset)).map (fun v => offset + 1 + v)) := by
  unfold memcpy_offset_candidates
  have hw : omx + 1 - omn = (offset - omn) + (1 + (omx - offset)) := by omega
  rw [hw, List.range_add, List.range_add]
  simp only [List.map_append, List.map_map]
  congr 1
  rw [show List.range 1 = [0] from rfl]
  simp only [List.map_cons, List.map_nil, List.singleton_append, Function.comp_apply]
  congr 1
  · omega
  · apply List.map_congr_left
    intro x hx
    simp only [Function.comp_apply]
    omega

/-! ### mbedtls_ct_memmove_left -/

theorem memmove_inner_eq_fold (no_op : Bool) (total : Nat) (buf : List Nat) :
    memmove_pass_inner no_op total buf =
      (List.range (total - 1)).foldl
        (fun b n => b.set n (mbedtls_ct_uint_if no_op (b.getD n 0) (b.getD (n + 1) 0)))
        buf :=
  rfl

theorem memmove_pass_eq (no_op : Bool) (total : Nat) (buf : List Nat) :
    memmove_left_pass no_op total buf =
      (memmove_pass_inner no_op total buf).set (total - 1)
        (mbedtls_ct_uint_if_else_0 no_op
          ((memmove_pass_inner no_op total buf).getD (total - 1) 0)) :=
  rfl

theorem memmove_inner_length (no_op : Bool) (total : Nat) (buf : List Nat) :
    (memmove_pass_inner no_op total buf).length = buf.length := by
  rw [memmove_inner_eq_fold]
  exact foldl_set_range_length _ _ buf

theorem memmove_inner_getD (no_op : Bool) (total : Nat) (buf : List Nat) (j : Nat) :
    (memmove_pass_inner no_op total buf).getD j 0 =
      if j < total - 1 ∧ j < buf.length then
        mbedtls_ct_uint_if no_op (buf.getD j 0) (buf.getD (j + 1) 0)
      else buf.getD j 0 := by
  rw [memmove_inner_eq_fold]
  exact foldl_set_range_getD
    (fun b n => mbedtls_ct_uint_if no_op (b.getD n 0) (b.getD (n + 1) 0))
    (fun b b' i hl hag => by
      show mbedtls_ct_uint_if no_op (b.getD i 0) (b.getD (i + 1) 0) = _
      rw [hag i (Nat.le_refl i), hag (i + 1) (by omega)]) (total - 1) buf j

theorem memmove_pass_length (no_op : Bool) (total : Nat) (buf : List Nat) :
    (memmove_left_pass no_op total buf).length = buf.length := by
  rw [memmove_pass_eq, List.length_set, memmove_inner_length]

/-- A no-op pass (condition true) leaves the buffer unchanged. -/
theorem memmove_pass_true (total : Nat) (b : List Nat) :
    memmove_left_pass true total b = b := by
  rw [memmove_pass_eq]
  have hinner : memmove_pass_inner true total b = b := by
    apply eq_of_length_getD
    · exact memmove_inner_length true total b
    · intro i hi
      rw [memmove_inner_getD]
      simp [mbedtls_ct_uint_if]
  rw [hinner]
  show b.set (total - 1) (b.getD (total - 1) 0) = b
  exact set_getD_self b (total - 1)

theorem getD_tail_append_zero_lt (b : List Nat) (i : Nat) (hi : i < b.length - 1) :
    (b.tail ++ [0]).getD i 0 = b.getD (i + 1) 0 := by
  rw [List.getD_eq_getElem?_getD, List.getElem?_append_left (by rw [List.length_tail]; omega),
    ← List.drop_one, List.getElem?_drop, ← List.getD_eq_getElem?_getD]
  congr 1
  omega

theorem getD_tail_append_zero_last (b : List Nat) (ht : 0 < b.length) :
    (b.tail ++ [0]).getD (b.length - 1) 0 = 0 := by
  rw [List.getD_eq_getElem?_getD, List.getElem?_append_right (by rw [List.length_tail]),
    List.length_tail, show b.length - 1 - (b.length - 1) = 0 from by omega]
  rfl

/-- A shifting pass (condition false) moves every byte one position left and
zeroes the last byte. -/
theorem memmove_pass_false (total : Nat) (b : List Nat) (hl : b.length = total)
    (ht : 0 < total) : memmove_left_pass false total b = b.tail ++ [0] := by
  rw [memmove_pass_eq]
  apply eq_of_length_getD
  · rw [List.length_set, memmove_inner_length, List.length_append, List.length_tail]
    simp
    omega
  · intro i hi
    rw [List.length_set, memmove_inner_length] at hi
    by_cases hlast : i = total - 1
    · rw [hlast, getD_set_self _ _ _ (by rw [memmove_inner_length]; omega)]
      rw [show (total - 1) = b.length - 1 from by omega, getD_tail_append_zero_last b (by omega)]
      rfl
    · rw [getD_set_ne _ _ _ _ (fun h => hlast h.symm), memmove_inner_getD,
        if_pos ⟨by omega, by omega⟩, getD_tail_append_zero_lt b i (by omega)]
      rfl

/-- The passes whose index satisfies `i < total - offset` (condition true) do
nothing. -/
theorem fold_pass_true (total offset : Nat) :
    ∀ (vs : List Nat) (b : List Nat), (∀ i ∈ vs, i < total - offset) →
      vs.foldl
        (fun b i => memmove_left_pass (mbedtls_ct_uint_gt (total - offset) i) total b) b = b := by
  intro vs
  induction vs with
  | nil =>
    intro b _
    rfl
  | cons v vs ih =>
    intro b hv
    rw [List.foldl_cons]
    have hc : mbedtls_ct_uint_gt (total - offset) v = true := by
      unfold mbedtls_ct_uint_gt
      exact decide_eq_true (hv v (by simp))
    rw [hc, memmove_pass_true]
    exact ih b (fun w hw => hv w (by simp [hw]))

/-- The passes whose index satisfies `total - offset ≤ i` (condition false)
each shift by one byte; `k` such passes shift by `k` and zero the `k` trailing
bytes. -/
theorem fold_pass_false (total offset : Nat) :
    ∀ (vs : List Nat) (b : List Nat), b.length = total → (∀ i ∈ vs, total - offset ≤ i) →
      vs.length ≤ total →
      vs.foldl
        (fun b i => memmove_left_pass (mbedtls_ct_uint_gt (total - offset) i) total b) b =
        b.drop vs.length ++ List.replicate vs.length 0 := by
  intro vs
  induction vs with
  | nil =>
    intro b _ _ _
    simp
  | cons v vs ih =>
    intro b hl hv hle
    rw [List.foldl_cons]
    have hc : mbedtls_ct_uint_gt (total - offset) v = false := by
      unfold mbedtls_ct_uint_gt
      exact decide_eq_false (by have := hv v (by simp); omega)
    simp only [List.length_cons] at hle
    rw [hc, memmove_pass_false total b hl (by omega)]
    rw [ih (b.tail ++ [0]) (by rw [List.length_append, List.length_tail]; simp; omega)
      (fun w hw => hv w (by simp [hw])) (by omega)]
    rw [List.drop_append_of_le_length (by rw [List.length_tail]; omega)]
    rw [← List.drop_one, List.drop_drop, List.append_assoc, List.singleton_append,
      ← List.replicate_succ]
    rw [show 1 + vs.length = vs.length + 1 from by omega]
    simp only [List.length_cons]

/-! ### Frame lemmas: writes stay below the declared size -/

theorem memmove_pass_getD_high (c : Bool) (total : Nat) (b : List Nat) (j : Nat)
    (ht : 0 < total) (hj : total ≤ j) :
    (memmove_left_pass c total b).getD j 0 = b.getD j 0 := by
  rw [memmove_pass_eq, getD_set_ne _ _ _ _ (by omega : total - 1 ≠ j), memmove_inner_getD,
    if_neg (by omega)]

theorem fold_pass_frame (total offset j : Nat) (ht : 0 < total) (hj : total ≤ j) :
    ∀ (vs : List Nat) (b : List Nat),
      ((vs.foldl
        (fun b i => memmove_left_pass (mbedtls_ct_uint_gt (total - offset) i) total b)
        b).getD j 0 = b.getD j 0) ∧
      ((vs.foldl
        (fun b i => memmove_left_pass (mbedtls_ct_uint_gt (total - offset) i) total b)
        b).length = b.length) := by
  intro vs
  induction vs with
  | nil =>
    intro b
    exact ⟨rfl, rfl⟩
  | cons v vs ih =>
    intro b
    rw [List.foldl_cons]
    constructor
    · rw [(ih _).1, memmove_pass_getD_high _ total b j ht hj]
    · rw [(ih _).2, memmove_pass_length]

/-! ### Access-trace length -/

theorem fold_append_reads_length (len : Nat) :
    ∀ (vs : List Nat) (acc : List Nat),
      (vs.foldl (fun acc v => acc ++ (List.range len).map (fun i => v + i)) acc).length =
        acc.length + vs.length * len := by
  intro vs
  induction vs with
  | nil =>
    intro acc
    simp
  | cons v vs ih =>
    intro acc
    rw [List.foldl_cons, ih, List.length_append, List.length_map, List.length_range,
      List.length_cons, Nat.succ_mul]
    omega

/-! ### Claim theorems -/

/-- C1: for buffers `a`, `b` of equal length `n`, `mbedtls_ct_memcmp a b n`
returns 0 iff `a` and `b` are equal byte-for-byte; comparing any buffer with
itself gives 0 for every `n`; and with `n = 0` the result is 0 for any two
buffers. -/
theorem mbedtls_ct_memcmp_correct (a b : List Nat) (n : Nat)
    (ha : a.length = n) (hb : b.length = n) :
    (mbedtls_ct_memcmp a b n = 0 ↔ a = b) ∧
    (∀ (c : List Nat) (m : Nat), mbedtls_ct_memcmp c c m = 0) ∧
    (∀ (c d : List Nat), mbedtls_ct_memcmp c d 0 = 0) := by
  refine ⟨?_, ?_, fun c d => rfl⟩
  · rw [memcmp_eq_zero_iff_getD]
    constructor
    · intro h
      apply eq_of_length_getD a b (by omega)
      intro i hi
      exact h i (by omega)
    · intro h i hi
      rw [h]
  · intro c m
    rw [memcmp_eq_zero_iff_getD]
    intro i _
    rfl

theorem mbedtls_ct_memcmp_correct_witness :
    (([10, 20, 30] : List Nat).length = 3) ∧ (([10, 20, 31] : List Nat).length = 3) ∧
      ((mbedtls_ct_memcmp [10, 20, 30] [10, 20, 31] 3 = 0 ↔
          ([10, 20, 30] : List Nat) = [10, 20, 31]) ∧
        (∀ (c : List Nat) (m : Nat), mbedtls_ct_memcmp c c m = 0) ∧
        (∀ (c d : List Nat), mbedtls_ct_memcmp c d 0 = 0)) :=
  ⟨by decide, by decide,
    mbedtls_ct_memcmp_correct [10, 20, 30] [10, 20, 31] 3 (by decide) (by decide)⟩

/-- C2: `mbedtls_ct_memmove_left buf total offset` with `offset ≤ total` and a
buffer of `total` bytes shifts the contents left by `offset` bytes and zeroes
the trailing `offset` bytes.  `offset = 0` leaves the buffer unchanged and
`offset = total` zeroes it completely, as special cases of the equation. -/
theorem mbedtls_ct_memmove_left_correct (buf : List Nat) (total offset : Nat)
    (hl : buf.length = total) (ho : offset ≤ total) :
    mbedtls_ct_memmove_left buf total offset = buf.drop offset ++ List.replicate offset 0 := by
  unfold mbedtls_ct_memmove_left
  have hsplit : List.range total =
      List.range (total - offset) ++ (List.range offset).map (fun i => (total - offset) + i) := by
    have h2 := List.range_add (total - offset) offset
    rw [show total - offset + offset = total from by omega] at h2
    exact h2
  rw [hsplit, List.foldl_append]
  rw [fold_pass_true total offset (List.range (total - offset)) buf
    (fun i hi => List.mem_range.mp hi)]
  rw [fold_pass_false total offset _ buf hl
    (by
      rintro i hi
      simp only [List.mem_map, List.mem_range] at hi
      rcases hi with ⟨j, hj, rfl⟩
      omega)
    (by rw [List.length_map, List.length_range]; exact ho)]
  rw [List.length_map, List.length_range]

theorem mbedtls_ct_memmove_left_correct_witness :
    (([1, 2, 3, 4, 5, 6, 7, 8] : List Nat).length = 8) ∧ (3 ≤ 8) ∧
      mbedtls_ct_memmove_left [1, 2, 3, 4, 5, 6, 7, 8] 8 3 = [4, 5, 6, 7, 8, 0, 0, 0] :=
  ⟨by decide, by decide,
    Eq.trans
      (mbedtls_ct_memmove_left_correct [1, 2, 3, 4, 5, 6, 7, 8] 8 3 (by decide) (by decide))
      (by decide)⟩

/-- C3: `mbedtls_ct_memcpy_if` writes the first `len` bytes of `dest` from
`src1` when the condition is true and from `src2` when it is false; with the
NULL sentinel and a false condition `dest` is unchanged; `len = 0` changes
nothing. -/
theorem mbedtls_ct_memcpy_if_correct (dest src1 s : List Nat) (len : Nat)
    (hd : len ≤ dest.length) (h1 : len ≤ src1.length) (hs : len ≤ s.length)
    (hb1 : ∀ x ∈ src1, x < 256) (hbs : ∀ x ∈ s, x < 256) (hbd : ∀ x ∈ dest, x < 256) :
    (mbedtls_ct_memcpy_if true dest src1 (some s) len = src1.take len ++ dest.drop len) ∧
    (mbedtls_ct_memcpy_if true dest src1 none len = src1.take len ++ dest.drop len) ∧
    (mbedtls_ct_memcpy_if false dest src1 (some s) len = s.take len ++ dest.drop len) ∧
    (mbedtls_ct_memcpy_if false dest src1 none len = dest) ∧
    (∀ (c : Bool) (d2 s1 : List Nat) (s2 : Option (List Nat)),
        mbedtls_ct_memcpy_if c d2 s1 s2 0 = d2) :=
  ⟨memcpy_if_true_eq dest src1 (some s) len hd h1 hb1,
   memcpy_if_true_eq dest src1 none len hd h1 hb1,
   memcpy_if_false_some_eq dest src1 s len hd hs hbs,
   memcpy_if_false_none_eq dest src1 len hbd,
   fun c d2 s1 s2 => rfl⟩

theorem mbedtls_ct_memcpy_if_correct_witness :
    (3 ≤ ([9, 9, 9] : List Nat).length) ∧ (3 ≤ ([1, 2, 3] : List Nat).length) ∧
      (3 ≤ ([4, 5, 6] : List Nat).length) ∧
      (∀ x ∈ ([1, 2, 3] : List Nat), x < 256) ∧ (∀ x ∈ ([4, 5, 6] : List Nat), x < 256) ∧
      (∀ x ∈ ([9, 9, 9] : List Nat), x < 256) ∧
      ((mbedtls_ct_memcpy_if true [9, 9, 9] [1, 2, 3] (some [4, 5, 6]) 3 =
          List.take 3 [1, 2, 3] ++ List.drop 3 [9, 9, 9]) ∧
        (mbedtls_ct_memcpy_if true [9, 9, 9] [1, 2, 3] none 3 =
          List.take 3 [1, 2, 3] ++ List.drop 3 [9, 9, 9]) ∧
        (mbedtls_ct_memcpy_if false [9, 9, 9] [1, 2, 3] (some [4, 5, 6]) 3 =
          List.take 3 [4, 5, 6] ++ List.drop 3 [9, 9, 9]) ∧
        (mbedtls_ct_memcpy_if false [9, 9, 9] [1, 2, 3] none 3 = [9, 9, 9]) ∧
        (∀ (c : Bool) (d2 s1 : List Nat) (s2 : Option (List Nat)),
            mbedtls_ct_memcpy_if c d2 s1 s2 0 = d2)) :=
  ⟨by decide, by decide, by decide, by decide, by decide, by decide,
    mbedtls_ct_memcpy_if_correct [9, 9, 9] [1, 2, 3] [4, 5, 6] 3
      (by decide) (by decide) (by decide) (by decide) (by decide) (by decide)⟩

/-- C4: for `offset_min ≤ offset ≤ offset_max` (with the buffers long enough
for every access the C code makes), `mbedtls_ct_memcpy_offset` copies
`src[offset .. offset+len)` into the first `len` bytes of `dest`. -/
theorem mbedtls_ct_memcpy_offset_correct (dest src : List Nat)
    (offset omn omx len : Nat)
    (h1 : omn ≤ offset) (h2 : offset ≤ omx) (hd : len ≤ dest.length)
    (hs : offset + len ≤ src.length)
    (hsb : ∀ x ∈ src, x < 256) (hdb : ∀ x ∈ dest, x < 256) :
    mbedtls_ct_memcpy_offset dest src offset omn omx len =
      (src.drop offset).take len ++ dest.drop len := by
  unfold mbedtls_ct_memcpy_offset
  rw [memcpy_offset_candidates_split omn omx offset h1 h2, List.foldl_append, List.foldl_cons]
  rw [fold_memcpy_if_no_match src offset len
    ((List.range (offset - omn)).map (fun v => omn + v)) dest
    (by
      rintro v hv
      simp only [List.mem_map, List.mem_range] at hv
      rcases hv with ⟨j, hj, rfl⟩
      omega)
    hdb]
  have heq : mbedtls_ct_uint_eq offset offset = true := by
    unfold mbedtls_ct_uint_eq
    exact beq_self_eq_true offset
  rw [heq, memcpy_if_true_eq dest (src.drop offset) none len hd
    (by rw [List.length_drop]; omega)
    (fun x hx => hsb x (List.drop_subset offset src hx))]
  apply fold_memcpy_if_no_match
  · rintro v hv
    simp only [List.mem_map, List.mem_range] at hv
    rcases hv with ⟨j, hj, rfl⟩
    omega
  · intro x hx
    rcases List.mem_append.mp hx with h | h
    · exact hsb x (List.drop_subset offset src (List.take_subset len _ h))
    · exact hdb x (List.drop_subset len dest h)

theorem mbedtls_ct_memcpy_offset_correct_witness :
    (1 ≤ 2) ∧ (2 ≤ 3) ∧ (2 ≤ ([0, 0] : List Nat).length) ∧
      (2 + 2 ≤ ([10, 11, 12, 13, 14] : List Nat).length) ∧
      (∀ x ∈ ([10, 11, 12, 13, 14] : List Nat), x < 256) ∧
      (∀ x ∈ ([0, 0] : List Nat), x < 256) ∧
      mbedtls_ct_memcpy_offset [0, 0] [10, 11, 12, 13, 14] 2 1 3 2 = [12, 13] :=
  ⟨by decide, by decide, by decide, by decide, by decide, by decide,
    Eq.trans
      (mbedtls_ct_memcpy_offset_correct [0, 0] [10, 11, 12, 13, 14] 2 1 3 2
        (by decide) (by decide) (by decide) (by decide) (by decide) (by decide))
      (by decide)⟩

/-- C5: `mbedtls_ct_zeroize_if` with a true condition zeroes the first `len`
bytes of the buffer (leaving the rest untouched); with a false condition it
leaves every byte unchanged. -/
theorem mbedtls_ct_zeroize_if_correct (buf : List Nat) (len : Nat)
    (h : len ≤ buf.length) (hb : ∀ x ∈ buf, x < 256) :
    (mbedtls_ct_zeroize_if true buf len = List.replicate len 0 ++ buf.drop len) ∧
    (mbedtls_ct_zeroize_if false buf len = buf) :=
  ⟨zeroize_if_true_eq buf len h, zeroize_if_false_eq buf len hb⟩

theorem mbedtls_ct_zeroize_if_correct_witness :
    (3 ≤ ([1, 2, 3] : List Nat).length) ∧ (∀ x ∈ ([1, 2, 3] : List Nat), x < 256) ∧
      ((mbedtls_ct_zeroize_if true [1, 2, 3] 3 =
          List.replicate 3 0 ++ List.drop 3 [1, 2, 3]) ∧
        (mbedtls_ct_zeroize_if false [1, 2, 3] 3 = [1, 2, 3])) :=
  ⟨by decide, by decide, mbedtls_ct_zeroize_if_correct [1, 2, 3] 3 (by decide) (by decide)⟩

/-- C6: when the secret offset lies outside `[offset_min, offset_max]`, no
candidate of `mbedtls_ct_memcpy_offset` matches, every conditional copy
selects `dest` from itself, and `dest` is unchanged. -/
theorem mbedtls_ct_memcpy_offset_out_of_range (dest src : List Nat)
    (offset omn omx len : Nat) (hr : omn ≤ omx)
    (hout : offset < omn ∨ omx < offset) (hdb : ∀ x ∈ dest, x < 256) :
    mbedtls_ct_memcpy_offset dest src offset omn omx len = dest := by
  unfold mbedtls_ct_memcpy_offset
  apply fold_memcpy_if_no_match
  · intro v hv
    rw [memcpy_offset_candidates_mem] at hv
    omega
  · exact hdb

theorem mbedtls_ct_memcpy_offset_out_of_range_witness :
    (1 ≤ 3) ∧ (5 < 1 ∨ 3 < 5) ∧ (∀ x ∈ ([7, 7] : List Nat), x < 256) ∧
      mbedtls_ct_memcpy_offset [7, 7] [1, 2, 3, 4] 5 1 3 2 = [7, 7] :=
  ⟨by decide, by decide, by decide,
    mbedtls_ct_memcpy_offset_out_of_range [7, 7] [1, 2, 3, 4] 5 1 3 2
      (by decide) (by decide) (by decide)⟩

/-- C7: `mbedtls_ct_memcmp a a n` is zero, so repeated calls return the same
zero result; and zeroizing twice with a true condition yields the same
all-zero buffer as zeroizing once. -/
theorem mbedtls_ct_idempotence (a buf : List Nat) (n len : Nat) (h : len ≤ buf.length) :
    (mbedtls_ct_memcmp a a n = 0) ∧
    (mbedtls_ct_zeroize_if true (mbedtls_ct_zeroize_if true buf len) len =
      mbedtls_ct_zeroize_if true buf len) := by
  constructor
  · rw [memcmp_eq_zero_iff_getD]
    intro i _
    rfl
  · rw [zeroize_if_true_eq buf len h]
    rw [zeroize_if_true_eq (List.replicate len 0 ++ buf.drop len) len
      (by rw [List.length_append, List.length_replicate, List.length_drop]; omega)]
    have hdrop : (List.replicate len 0 ++ buf.drop len).drop len = buf.drop len := by
      have hleft := List.drop_left (List.replicate len 0) (buf.drop len)
      rwa [List.length_replicate] at hleft
    rw [hdrop]

theorem mbedtls_ct_idempotence_witness :
    (3 ≤ ([5, 6, 7] : List Nat).length) ∧
      ((mbedtls_ct_memcmp [1, 2] [1, 2] 2 = 0) ∧
        (mbedtls_ct_zeroize_if true (mbedtls_ct_zeroize_if true [5, 6, 7] 3) 3 =
          mbedtls_ct_zeroize_if true [5, 6, 7] 3)) :=
  ⟨by decide, mbedtls_ct_idempotence [1, 2] [5, 6, 7] 2 3 (by decide)⟩

/-- C8: in the access-trace model, the sequence of `src` indices read by
`mbedtls_ct_memcpy_offset` does not depend on the secret offset; its length
(the number of loop iterations spent reading `src`) is
`(offset_max + 1 - offset_min) * len`, a function of the declared sizes
only; each candidate offset in `[offset_min, offset_max]` is visited exactly
once per call; and the reads of one conditional copy do not depend on its
condition.  (Physical execution time and cache behaviour of the compiled code
are outside the model; the loop iteration counts and touched indices are what
the embedding can express.) -/
theorem mbedtls_ct_access_pattern_independent :
    (∀ (offset offset2 offset_min offset_max len : Nat),
        memcpy_offset_src_reads offset offset_min offset_max len =
          memcpy_offset_src_reads offset2 offset_min offset_max len) ∧
    (∀ (offset offset_min offset_max len : Nat),
        (memcpy_offset_src_reads offset offset_min offset_max len).length =
          (offset_max + 1 - offset_min) * len) ∧
    (∀ (offset_min offset_max v : Nat), offset_min ≤ v → v ≤ offset_max →
        (memcpy_offset_candidates offset_min offset_max).count v = 1) ∧
    (∀ (c c2 : Bool) (base len : Nat),
        memcpy_if_src_reads c base len = memcpy_if_src_reads c2 base len) := by
  refine ⟨?_, ?_, ?_, ?_⟩
  · intro offset offset2 omn omx len
    simp only [memcpy_offset_src_reads, memcpy_if_src_reads]
  · intro offset omn omx len
    unfold memcpy_offset_src_reads
    simp only [memcpy_if_src_reads]
    rw [fold_append_reads_length len (memcpy_offset_candidates omn omx) []]
    unfold memcpy_offset_candidates
    rw [List.length_map, List.length_range, List.length_nil]
    omega
  · intro omn omx v hv1 hv2
    apply List.count_eq_one_of_mem
    · unfold memcpy_offset_candidates
      exact (List.nodup_range _).map (fun a b hab => by omega)
    · exact (memcpy_offset_candidates_mem omn omx v).mpr ⟨hv1, hv2⟩
  · intro c c2 base len
    simp only [memcpy_if_src_reads]

theorem mbedtls_ct_access_pattern_independent_witness :
    (1 ≤ 2) ∧ (2 ≤ 3) ∧ (memcpy_offset_candidates 1 3).count 2 = 1 :=
  ⟨by decide, by decide,
    mbedtls_ct_access_pattern_independent.2.2.1 1 3 2 (by decide) (by decide)⟩

/-- C9: with an empty candidate range (`offset_max < offset_min`) the loop of
`mbedtls_ct_memcpy_offset` runs zero iterations: `dest` is unchanged and the
`src` read trace is empty, for every offset and length. -/
theorem mbedtls_ct_memcpy_offset_empty_range (dest src : List Nat)
    (offset omn omx len : Nat) (h : omx < omn) :
    (mbedtls_ct_memcpy_offset dest src offset omn omx len = dest) ∧
    (memcpy_offset_src_reads offset omn omx len = []) := by
  have hc : memcpy_offset_candidates omn omx = [] := by
    unfold memcpy_offset_candidates
    rw [show omx + 1 - omn = 0 from by omega]
    rfl
  unfold mbedtls_ct_memcpy_offset memcpy_offset_src_reads
  rw [hc]
  exact ⟨rfl, rfl⟩

theorem mbedtls_ct_memcpy_offset_empty_range_witness :
    (2 < 5) ∧
      ((mbedtls_ct_memcpy_offset [1, 2] [3] 0 5 2 1 = [1, 2]) ∧
        (memcpy_offset_src_reads 0 5 2 1 = [])) :=
  ⟨by decide, mbedtls_ct_memcpy_offset_empty_range [1, 2] [3] 0 5 2 1 (by decide)⟩

/-- C10: each writing operation confines its writes to its declared range:
`mbedtls_ct_memcpy_if` and `mbedtls_ct_zeroize_if` leave every byte at index
`≥ len` unchanged and preserve the length, `mbedtls_ct_memmove_left` leaves
every byte at index `≥ total` unchanged, preserves the length, and is a
complete no-op when `total = 0`.  (`mbedtls_ct_memcmp` is modelled as a pure
function returning only the accumulated difference, so it writes no memory by
construction.) -/
theorem mbedtls_ct_writes_confined :
    (∀ (c : Bool) (dest src1 : List Nat) (src2 : Option (List Nat)) (len j : Nat),
        len ≤ j →
        (mbedtls_ct_memcpy_if c dest src1 src2 len).getD j 0 = dest.getD j 0 ∧
        (mbedtls_ct_memcpy_if c dest src1 src2 len).length = dest.length) ∧
    (∀ (c : Bool) (buf : List Nat) (len j : Nat), len ≤ j →
        (mbedtls_ct_zeroize_if c buf len).getD j 0 = buf.getD j 0 ∧
        (mbedtls_ct_zeroize_if c buf len).length = buf.length) ∧
    (∀ (buf : List Nat) (total offset j : Nat), total ≤ j →
        (mbedtls_ct_memmove_left buf total offset).getD j 0 = buf.getD j 0 ∧
        (mbedtls_ct_memmove_left buf total offset).length = buf.length) ∧
    (∀ (buf : List Nat) (offset : Nat), mbedtls_ct_memmove_left buf 0 offset = buf) := by
  refine ⟨?_, ?_, ?_, ?_⟩
  · intro c dest src1 src2 len j hj
    refine ⟨?_, memcpy_if_length c dest src1 src2 len⟩
    cases src2 with
    | some s => rw [memcpy_if_getD_some, if_neg (by omega)]
    | none => rw [memcpy_if_getD_none, if_neg (by omega)]
  · intro c buf len j hj
    exact ⟨by rw [zeroize_if_getD, if_neg (by omega)], zeroize_if_length c buf len⟩
  · intro buf total offset j hj
    by_cases ht : 0 < total
    · exact fold_pass_frame total offset j ht hj (List.range total) buf
    · have h0 : total = 0 := by omega
      rw [h0]
      exact ⟨rfl, rfl⟩
  · intro buf offset
    rfl

theorem mbedtls_ct_writes_confined_witness :
    (2 ≤ 2) ∧
      ((mbedtls_ct_memcpy_if true [9, 8, 7] [1, 2, 3] none 2).getD 2 0 =
          ([9, 8, 7] : List Nat).getD 2 0) ∧
      ((mbedtls_ct_zeroize_if true [9, 8, 7] 2).getD 2 0 = ([9, 8, 7] : List Nat).getD 2 0) ∧
      ((mbedtls_ct_memmove_left [9, 8] 2 1).getD 2 0 = ([9, 8] : List Nat).getD 2 0) ∧
      (mbedtls_ct_memmove_left [9, 8] 0 1 = [9, 8]) :=
  ⟨by decide,
    (mbedtls_ct_writes_confined.1 true [9, 8, 7] [1, 2, 3] none 2 2 (by decide)).1,
    (mbedtls_ct_writes_confined.2.1 true [9, 8, 7] 2 2 (by decide)).1,
    (mbedtls_ct_writes_confined.2.2.1 [9, 8] 2 1 2 (by decide)).1,
    mbedtls_ct_writes_confined.2.2.2 [9, 8] 1⟩

example : mbedtls_ct_memcmp [1, 2, 3] [1, 2, 3] 3 = 0 := by decide

example : mbedtls_ct_memcmp [1, 2, 3] [1, 2, 4] 3 ≠ 0 := by decide

example :
    mbedtls_ct_memmove_left [1, 2, 3, 4, 5, 6, 7, 8] 8 3 = [4, 5, 6, 7, 8, 0, 0, 0] := by
  decide

example : mbedtls_ct_memmove_left [1, 2, 3] 3 0 = [1, 2, 3] := by decide

example : mbedtls_ct_memmove_left [1, 2, 3] 3 3 = [0, 0, 0] := by decide

example : mbedtls_ct_memcpy_if true [9, 9, 9] [1, 2, 3] (some [4, 5, 6]) 3 = [1, 2, 3] := by
  decide

example : mbedtls_ct_memcpy_if false [9, 9, 9] [1, 2, 3] (some [4, 5, 6]) 3 = [4, 5, 6] := by
  decide

example : mbedtls_ct_memcpy_if false [9, 9, 9] [1, 2, 3] none 3 = [9, 9, 9] := by decide

example : mbedtls_ct_memcpy_offset [0, 0] [10, 11, 12, 13, 14] 2 1 3 2 = [12, 13] := by
  decide

example : mbedtls_ct_zeroize_if true [1, 2, 3] 3 = [0, 0, 0] := by decide

example : mbedtls_ct_zeroize_if false [1, 2, 3] 3 = [1, 2, 3] := by decide
